import Mathlib

/-!
# Verification of the Milton-WX radar-loop script

A shallow embedding of `radar_script.py`: the remote-listing resolver
(`sorted(keys)[-5:]` after a `startswith` filtering), the per-key
fetch/decode/render loop that writes one PNG frame per scan, the fixed
five-hour timestamp shift, and the GIF assembly loop
(`Image.open` / `img.resize(base_size, Image.BILINEAR)` /
`images[0].save(..., duration=800, loop=0)`).

External collaborators (HTTP transport, the NEXRAD decoder, the map
renderer, the pixel-level resampler) are opaque: a frame is a pair of
pixel dimensions plus an opaque content tag, and each per-key step is an
arbitrary function into `Except`, so every theorem quantifies over their
behaviour.  The filesystem is explicit: a list of written PNG files plus
the single GIF slot, written in program order.
-/

namespace RadarScript

/-- Resampling filters of the imaging library; the script only ever uses
`Image.BILINEAR`. -/
inductive Filter where
  | BILINEAR
deriving DecidableEq

/-- Opaque pixel content of a raster image: either content as rendered
(identified by a tag) or the result of resampling other content to a
target size with a given filter. -/
inductive Content where
  | src (tag : Nat)
  | resampled (c : Content) (w h : Nat) (f : Filter)
deriving DecidableEq

/-- A raster image: pixel dimensions plus opaque content. -/
structure Img where
  width : Nat
  height : Nat
  content : Content
deriving DecidableEq

/-- PIL `img.size`: the `(width, height)` pair. -/
def Img.size (i : Img) : Nat × Nat := (i.width, i.height)

/-- PIL `img.resize(sz, f)`: a new image whose dimensions are exactly the
requested size and whose content is the resampling of the old content. -/
def Img.resize (i : Img) (sz : Nat × Nat) (f : Filter) : Img :=
  { width := sz.1, height := sz.2, content := Content.resampled i.content sz.1 sz.2 f }

/-- The observable structure of the saved GIF: its frame sequence in
display order, the per-frame duration in milliseconds, and the loop
count (`0` = loop forever). -/
structure Gif where
  frames : List Img
  duration : Nat
  loop : Nat
deriving DecidableEq

/-- The failures the run can end in: an HTTP error surfaced by
`raise_for_status`, a decoder error from `pyart`, a plotting error, a
file that cannot be opened, and the `IndexError` that `images[0]`
raises on an empty list. -/
inductive Err where
  | transport (status : Nat)
  | decode (msg : String)
  | render (msg : String)
  | ioFailure (path : String)
  | indexError
deriving DecidableEq

/-- Python's string order, the one `sorted` uses: lexicographic by code
point, i.e. the lexicographic order on the character sequences.
(Mathlib's order on `String` is the same relation:
`String.le_iff_toList_le`.) -/
def pyStrLe (a b : String) : Prop := a.toList ≤ b.toList

instance : DecidableRel pyStrLe :=
  fun a b => inferInstanceAs (Decidable (a.toList ≤ b.toList))

instance : IsTotal String pyStrLe := ⟨fun a b => le_total a.toList b.toList⟩

instance : IsTrans String pyStrLe := ⟨fun _ _ _ => le_trans⟩

/-- Python `s.startswith(p)`: `p`'s character sequence is an initial
segment of `s`'s. -/
def startswith (s p : String) : Bool := p.toList.isPrefixOf s.toList

/-- Python `s.split('/')[-1]`: the part after the last `'/'`, or all of
`s` when it has none. -/
def lastComponent (s : String) : String :=
  ((s.toList.splitOn '/').getLastD []).asString

/-- Python `lst[-n:]`: the last `n` elements of `lst`, or all of `lst`
when it has fewer than `n`. -/
def takeLast (n : Nat) (l : List α) : List α := l.drop (l.length - n)

/-- Lines 43-44 of `radar_script.py`: keep the scraped `<key>` texts that
start with `STATION_date`, sort ascending, take the last five
(`keys = sorted(keys)[-5:]`). -/
def list_recent_keys (scraped : List String) (pfx : String) : List String :=
  takeLast 5 (List.insertionSort pyStrLe (scraped.filter (fun k => startswith k pfx)))

/-- Line 110: `os.path.join(FOLDER, key.split('/')[-1] + "_mercator.png")`
with `FOLDER = "nexrad"`. -/
def out_png (key : String) : String :=
  "nexrad/" ++ lastComponent key ++ "_mercator.png"

/-- `timedelta(hours=h)` measured in seconds. -/
def timedelta_hours (h : Int) : Int := h * 3600

/-- Line 99: `cdt_dt = utc_dt - timedelta(hours=5)`, instants as seconds
on the UTC timeline. -/
def cdt_dt (utc_dt : Int) : Int := utc_dt - timedelta_hours 5

/-- Lines 123-131: the image-opening loop.  `base_size` starts as `None`;
the first opened image fixes it and every later image is resized to it
with `Image.BILINEAR`, unconditionally.  Opening is fallible, exactly as
`Image.open` is. -/
def buildImages (openImg : String → Except Err Img) :
    List String → Option (Nat × Nat) → Except Err (List Img)
  | [], _ => Except.ok []
  | f :: rest, base_size =>
    match openImg f with
    | Except.error e => Except.error e
    | Except.ok img =>
      match base_size with
      | none =>
        match buildImages openImg rest (some img.size) with
        | Except.error e => Except.error e
        | Except.ok imgs => Except.ok (img :: imgs)
      | some sz =>
        match buildImages openImg rest (some sz) with
        | Except.error e => Except.error e
        | Except.ok imgs => Except.ok (img.resize sz Filter.BILINEAR :: imgs)

/-- Lines 123-139: build the image list, then
`images[0].save(GIF_FILENAME, save_all=True, append_images=images[1:],
duration=800, loop=0)`.  On an empty list, `images[0]` raises
`IndexError` before anything touches the output path. -/
def assemble (openImg : String → Except Err Img) (png_files : List String) :
    Except Err Gif :=
  match buildImages openImg png_files none with
  | Except.error e => Except.error e
  | Except.ok [] => Except.error Err.indexError
  | Except.ok (i :: rest) => Except.ok { frames := i :: rest, duration := 800, loop := 0 }

/-- The files the run touches: the PNG frames written so far (in write
order, later writes shadowing earlier ones at the same path) and the
single GIF output slot. -/
structure Disk where
  pngs : List (String × Img)
  gif : Option Gif
deriving DecidableEq

/-- `plt.savefig(out_png)`: record a write at path `p`. -/
def Disk.write (d : Disk) (p : String) (i : Img) : Disk :=
  { d with pngs := d.pngs ++ [(p, i)] }

/-- What a read at path `p` returns: the most recent write there. -/
def Disk.read (d : Disk) (p : String) : Option Img :=
  (d.pngs.reverse.find? (fun e => e.1 == p)).map (fun e => e.2)

/-- `Image.open(p)` against the disk: the stored image, or an I/O
failure when nothing was ever written at `p`. -/
def Disk.openImg (d : Disk) (p : String) : Except Err Img :=
  match d.read p with
  | some i => Except.ok i
  | none => Except.error (Err.ioFailure p)

/-- Lines 60-114: the per-key loop.  `process` stands for the composite
fetch + `raise_for_status` + decode + plot of one key; on success the
rendered frame is saved to `out_png key` and the path appended to
`png_files`; on failure the run stops at once, keeping what was
written. -/
def fetchLoop (process : String → Except Err Img) :
    List String → Disk → List String → Disk × List String × Option Err
  | [], d, png_files => (d, png_files, none)
  | k :: ks, d, png_files =>
    match process k with
    | Except.error e => (d, png_files, some e)
    | Except.ok img =>
      fetchLoop process ks (d.write (out_png k) img) (png_files ++ [out_png k])

/-- The run's external world: the outcome of the listing request (the
scraped `<key>` texts, or a transport failure) and the per-key
fetch/decode/render step. -/
structure Env where
  listing : Except Err (List String)
  process : String → Except Err Img

/-- The whole script for one run: resolve the listing, loop over the
keys, reverse `png_files` (`png_files = png_files[::-1]`, line 121) and
assemble the GIF.  Returns the final disk and the error the run died
with, if any. -/
def runPipeline (env : Env) (pfx : String) (d0 : Disk) : Disk × Option Err :=
  match env.listing with
  | Except.error e => (d0, some e)
  | Except.ok scraped =>
    let keys := list_recent_keys scraped pfx
    match fetchLoop env.process keys d0 [] with
    | (d1, _, some e) => (d1, some e)
    | (d1, png_files, none) =>
      match assemble d1.openImg png_files.reverse with
      | Except.error e => (d1, some e)
      | Except.ok g => ({ d1 with gif := some g }, none)

/-- The assembly step together with its write to the output path:
on success the GIF slot is overwritten, on failure the disk is left as
it was. -/
def assembleAndWrite (openImg : String → Except Err Img)
    (png_files : List String) (d : Disk) : Disk × Option Err :=
  match assemble openImg png_files with
  | Except.error e => (d, some e)
  | Except.ok g => ({ d with gif := some g }, none)

/-- The image `process` renders for key `k` (unspecified default when
`process k` fails; only used under success hypotheses). -/
def imgOf (process : String → Except Err Img) (k : String) : Img :=
  match process k with
  | Except.ok i => i
  | Except.error _ => ⟨0, 0, Content.src 0⟩

/-- The disk after the per-key loop has saved the frames of `keys`. -/
def writeFrames (process : String → Except Err Img) (d : Disk) (keys : List String) : Disk :=
  keys.foldl (fun d1 k => d1.write (out_png k) (imgOf process k)) d

theorem takeLast_suffix (n : Nat) (l : List α) : takeLast n l <:+ l :=
  List.drop_suffix _ _

theorem length_takeLast (n : Nat) (l : List α) :
    (takeLast n l).length = min n l.length := by
  simp only [takeLast, List.length_drop]
  omega

theorem takeLast_of_le (n : Nat) (l : List α) (h : l.length ≤ n) :
    takeLast n l = l := by
  simp [takeLast, Nat.sub_eq_zero_of_le h]

theorem buildImages_some_eq (fs : String → Img) (sz : Nat × Nat) :
    ∀ files : List String,
      buildImages (fun p => Except.ok (fs p)) files (some sz)
        = Except.ok (files.map (fun p => (fs p).resize sz Filter.BILINEAR))
  | [] => rfl
  | f :: rest => by
    simp only [buildImages, buildImages_some_eq fs sz rest, List.map_cons]

theorem assemble_cons_eq (fs : String → Img) (f : String) (rest : List String) :
    assemble (fun p => Except.ok (fs p)) (f :: rest)
      = Except.ok ⟨fs f :: rest.map (fun p => (fs p).resize (fs f).size Filter.BILINEAR),
                   800, 0⟩ := by
  simp only [assemble, buildImages, buildImages_some_eq]

theorem buildImages_length (openI : String → Except Err Img) :
    ∀ (files : List String) (b : Option (Nat × Nat)) (imgs : List Img),
      buildImages openI files b = Except.ok imgs → imgs.length = files.length := by
  intro files
  induction files with
  | nil =>
    intro b imgs h
    simp only [buildImages] at h
    cases h
    rfl
  | cons f rest ih =>
    intro b imgs h
    cases hf : openI f with
    | error e => simp [buildImages, hf] at h
    | ok img =>
      cases b with
      | none =>
        cases hb : buildImages openI rest (some img.size) with
        | error e => simp [buildImages, hf, hb] at h
        | ok imgs0 =>
          simp only [buildImages, hf, hb] at h
          cases h
          simpa using ih _ _ hb
      | some sz =>
        cases hb : buildImages openI rest (some sz) with
        | error e => simp [buildImages, hf, hb] at h
        | ok imgs0 =>
          simp only [buildImages, hf, hb] at h
          cases h
          simpa using ih _ _ hb

theorem assemble_ok_inv (openI : String → Except Err Img) (files : List String) (g : Gif)
    (h : assemble openI files = Except.ok g) :
    ∃ imgs, buildImages openI files none = Except.ok imgs ∧ g.frames = imgs ∧
      g.duration = 800 ∧ g.loop = 0 := by
  unfold assemble at h
  cases hb : buildImages openI files none with
  | error e => rw [hb] at h; cases h
  | ok imgs =>
    rw [hb] at h
    cases imgs with
    | nil => cases h
    | cons i rest =>
      cases h
      exact ⟨i :: rest, rfl, rfl, rfl, rfl⟩

theorem writeFrames_pngs (process : String → Except Err Img) :
    ∀ (keys : List String) (d : Disk),
      (writeFrames process d keys).pngs
          = d.pngs ++ keys.map (fun k => (out_png k, imgOf process k)) ∧
        (writeFrames process d keys).gif = d.gif := by
  intro keys
  induction keys with
  | nil => intro d; simp [writeFrames]
  | cons k ks ih =>
    intro d
    have h := ih (d.write (out_png k) (imgOf process k))
    simp only [writeFrames, List.foldl_cons] at h ⊢
    refine ⟨?_, ?_⟩
    · rw [h.1]; simp [Disk.write]
    · rw [h.2]; rfl

theorem fetchLoop_ok_eq (process : String → Except Err Img) :
    ∀ (keys : List String) (d : Disk) (acc : List String),
      (∀ k ∈ keys, ∃ i, process k = Except.ok i) →
      fetchLoop process keys d acc
        = (writeFrames process d keys, acc ++ keys.map out_png, none) := by
  intro keys
  induction keys with
  | nil => intro d acc _; simp [fetchLoop, writeFrames]
  | cons k ks ih =>
    intro d acc hok
    obtain ⟨i, hi⟩ := hok k (List.mem_cons_self k ks)
    have himg : imgOf process k = i := by simp [imgOf, hi]
    simp only [fetchLoop, hi]
    rw [ih _ _ (fun k1 hk1 => hok k1 (List.mem_cons_of_mem k hk1))]
    simp [writeFrames, himg]

theorem fetchLoop_fail_eq (process : String → Except Err Img) (e : Err) :
    ∀ (ks1 : List String) (k : String) (ks2 : List String) (d : Disk) (acc : List String),
      (∀ k1 ∈ ks1, ∃ i, process k1 = Except.ok i) →
      process k = Except.error e →
      fetchLoop process (ks1 ++ k :: ks2) d acc
        = (writeFrames process d ks1, acc ++ ks1.map out_png, some e) := by
  intro ks1
  induction ks1 with
  | nil =>
    intro k ks2 d acc _ hfail
    simp [fetchLoop, hfail, writeFrames]
  | cons k1 ks ih =>
    intro k ks2 d acc hok hfail
    obtain ⟨i, hi⟩ := hok k1 (List.mem_cons_self k1 ks)
    have himg : imgOf process k1 = i := by simp [imgOf, hi]
    simp only [List.cons_append, fetchLoop, hi, List.append_eq]
    rw [ih k ks2 (d.write (out_png k1) i) (acc ++ [out_png k1])
      (fun k2 hk2 => hok k2 (List.mem_cons_of_mem k1 hk2)) hfail]
    simp [writeFrames, himg]

theorem fetchLoop_gif_eq (process : String → Except Err Img) :
    ∀ (keys : List String) (d : Disk) (acc : List String),
      ((fetchLoop process keys d acc).1).gif = d.gif := by
  intro keys
  induction keys with
  | nil => intro d acc; rfl
  | cons k ks ih =>
    intro d acc
    cases hk : process k with
    | error e => simp [fetchLoop, hk]
    | ok img => simp [fetchLoop, hk, ih, Disk.write]

theorem fetchLoop_none_pngs (process : String → Except Err Img) :
    ∀ (keys : List String) (d : Disk) (acc : List String) (d1 : Disk) (pngs : List String),
      fetchLoop process keys d acc = (d1, pngs, none) → pngs = acc ++ keys.map out_png := by
  intro keys
  induction keys with
  | nil =>
    intro d acc d1 pngs h
    simp only [fetchLoop] at h
    cases h
    simp
  | cons k ks ih =>
    intro d acc d1 pngs h
    cases hk : process k with
    | error e => simp only [fetchLoop, hk] at h; cases h
    | ok img =>
      simp only [fetchLoop, hk] at h
      have hp := ih _ _ _ _ h
      simp [hp]

theorem fetchLoop_none_allOk (process : String → Except Err Img) :
    ∀ (keys : List String) (d : Disk) (acc : List String) (d1 : Disk) (pngs : List String),
      fetchLoop process keys d acc = (d1, pngs, none) →
      ∀ k ∈ keys, ∃ i, process k = Except.ok i := by
  intro keys
  induction keys with
  | nil => intro d acc d1 pngs _ k hk; cases hk
  | cons k0 ks ih =>
    intro d acc d1 pngs h k hk
    cases hk0 : process k0 with
    | error e => simp only [fetchLoop, hk0] at h; cases h
    | ok img =>
      rcases List.mem_cons.mp hk with rfl | hk
      · exact ⟨img, hk0⟩
      · simp only [fetchLoop, hk0] at h
        exact ih _ _ _ _ h k hk

/-- Claim C2: for every non-empty frame sequence, every frame of the
assembled animation has the first frame's pixel dimensions; any frame
whose size differs from the first frame's is resampled to that canonical
size with `Image.BILINEAR`; and the assembler succeeds regardless of any
size mismatch (it never crops and never fails on one). -/
theorem assembled_frames_have_canonical_size (fs : String → Img) (f : String)
    (rest : List String) :
    ∃ g : Gif, assemble (fun p => Except.ok (fs p)) (f :: rest) = Except.ok g ∧
      (∀ i ∈ g.frames, i.size = (fs f).size) ∧
      ∀ p ∈ rest, (fs p).size ≠ (fs f).size →
        (fs p).resize (fs f).size Filter.BILINEAR ∈ g.frames := by
  refine ⟨_, assemble_cons_eq fs f rest, ?_, ?_⟩
  · intro i hi
    simp only [List.mem_cons, List.mem_map] at hi
    rcases hi with rfl | ⟨p, hp, rfl⟩
    · rfl
    · rfl
  · intro p hp _
    simp only [List.mem_cons, List.mem_map]
    exact Or.inr ⟨p, hp, rfl⟩

/-- Claim C3: for every non-empty ordered frame-path sequence (a
single-path sequence included), assembly yields exactly one displayed
frame per input path, in the given order with no deduplication,
reordering or interpolation — the frame list is literally the first
image followed by the remaining images each resized to the first's size
— at 800 ms per frame with loop count 0. -/
theorem assembled_animation_frame_count_duration_loop (fs : String → Img) (f : String)
    (rest : List String) :
    ∃ g : Gif, assemble (fun p => Except.ok (fs p)) (f :: rest) = Except.ok g ∧
      g.frames.length = (f :: rest).length ∧
      g.duration = 800 ∧ g.loop = 0 ∧
      g.frames = fs f :: rest.map (fun p => (fs p).resize (fs f).size Filter.BILINEAR) := by
  refine ⟨_, assemble_cons_eq fs f rest, ?_, rfl, rfl, rfl⟩
  simp

/-- Claim C4: assembling an empty frame sequence fails (the `images[0]`
index error) and the run writes nothing to the animation path: with a
listing that yields no matching key, the pipeline ends with that error
and the disk — the GIF slot included — is exactly as it started. -/
theorem assemble_empty_fails_without_writing (openI : String → Except Err Img)
    (process : String → Except Err Img) (pfx : String) (d0 : Disk) :
    assemble openI [] = Except.error Err.indexError ∧
    runPipeline ⟨Except.ok [], process⟩ pfx d0 = (d0, some Err.indexError) ∧
    ((runPipeline ⟨Except.ok [], process⟩ pfx d0).1).gif = d0.gif := by
  exact ⟨rfl, rfl, rfl⟩

/-- Claim C7: the displayed timestamp is the source (UTC) timestamp
minus a constant five hours — the same constant for every instant, with
no calendar or daylight-saving dependence. -/
theorem display_time_is_fixed_offset :
    (∀ t : Int, cdt_dt t = t - 5 * 3600) ∧
    (∀ t : Int, t - cdt_dt t = timedelta_hours 5) ∧
    ∀ t1 t2 : Int, t1 - cdt_dt t1 = t2 - cdt_dt t2 := by
  refine ⟨fun t => rfl, fun t => ?_, fun t1 t2 => ?_⟩ <;>
    simp [cdt_dt, timedelta_hours]

/-- Claim C8: running the assembly step twice over the same frame paths
and the same output slot gives the same outcome, and the two stored
animations agree on every observable: frame count, per-frame duration,
and the pixel dimensions of each frame. -/
theorem assemble_twice_same_observables (openI : String → Except Err Img)
    (png_files : List String) (d0 : Disk) :
    (assembleAndWrite openI png_files ((assembleAndWrite openI png_files d0).1)).2
      = (assembleAndWrite openI png_files d0).2 ∧
    (∀ g : Gif, assemble openI png_files = Except.ok g →
      ((assembleAndWrite openI png_files d0).1).gif = some g ∧
      ((assembleAndWrite openI png_files ((assembleAndWrite openI png_files d0).1)).1).gif
        = some g) ∧
    ∀ g1 g2 : Gif,
      ((assembleAndWrite openI png_files d0).1).gif = some g1 →
      ((assembleAndWrite openI png_files ((assembleAndWrite openI png_files d0).1)).1).gif
        = some g2 →
      g1.frames.length = g2.frames.length ∧ g1.duration = g2.duration ∧
        g1.frames.map Img.size = g2.frames.map Img.size := by
  refine ⟨?_, ?_, ?_⟩
  · cases ha : assemble openI png_files with
    | error e => simp [assembleAndWrite, ha]
    | ok g => simp [assembleAndWrite, ha]
  · intro g hg
    exact ⟨by simp [assembleAndWrite, hg], by simp [assembleAndWrite, hg]⟩
  · intro g1 g2 h1 h2
    cases ha : assemble openI png_files with
    | error e =>
      simp only [assembleAndWrite, ha] at h1 h2
      rw [h1] at h2
      cases h2
      exact ⟨rfl, rfl, rfl⟩
    | ok g =>
      simp only [assembleAndWrite, ha] at h1 h2
      cases h1
      cases h2
      exact ⟨rfl, rfl, rfl⟩

/-- Claim C10: the resampling is unconditional — the assembled frame
list is the first image untouched, followed by one `resize` application
per remaining path, so every later frame carries a `resampled` content
marker (even when its dimensions already equalled the canonical size),
while the first frame never does (it is returned exactly as opened). -/
theorem resize_applied_unconditionally (fs : String → Img) (f : String)
    (rest : List String) :
    ∃ g : Gif, assemble (fun p => Except.ok (fs p)) (f :: rest) = Except.ok g ∧
      g.frames.head? = some (fs f) ∧
      g.frames.tail = rest.map (fun p => (fs p).resize (fs f).size Filter.BILINEAR) ∧
      ∀ i ∈ g.frames.tail, ∃ c,
        i.content = Content.resampled c (fs f).width (fs f).height Filter.BILINEAR := by
  refine ⟨_, assemble_cons_eq fs f rest, rfl, rfl, ?_⟩
  intro i hi
  simp only [List.tail_cons, List.mem_map] at hi
  rcases hi with ⟨p, hp, rfl⟩
  exact ⟨(fs p).content, rfl⟩

theorem runPipeline_loop_err (env : Env) (pfx : String) (d0 : Disk) (scraped : List String)
    (hl : env.listing = Except.ok scraped) (d1 : Disk) (pngs : List String) (e : Err)
    (hfl : fetchLoop env.process (list_recent_keys scraped pfx) d0 [] = (d1, pngs, some e)) :
    runPipeline env pfx d0 = (d1, some e) := by
  simp only [runPipeline, hl]
  rw [hfl]

theorem runPipeline_ok_case (env : Env) (pfx : String) (d0 : Disk) (scraped : List String)
    (hl : env.listing = Except.ok scraped) (d1 : Disk) (pngs : List String)
    (hfl : fetchLoop env.process (list_recent_keys scraped pfx) d0 [] = (d1, pngs, none)) :
    runPipeline env pfx d0 =
      match assemble d1.openImg pngs.reverse with
      | Except.error e => (d1, some e)
      | Except.ok g => ({ d1 with gif := some g }, none) := by
  simp only [runPipeline, hl]
  rw [hfl]

/-- Claim C5: the resolver keeps exactly the scraped keys that start
with the `station_date` text, sorts them ascending (in Python's string
order), and returns the last five of them still in ascending order: the
result is a sorted suffix of the sorted matches whose length is
`min 5` the number of matches, and when at most five keys match it is
all of them (no padding, no error). -/
theorem listing_resolver_correct (scraped : List String) (pfx : String) :
    List.Sorted pyStrLe (list_recent_keys scraped pfx) ∧
    (∀ k ∈ list_recent_keys scraped pfx, startswith k pfx = true) ∧
    (list_recent_keys scraped pfx).length
      = min 5 (scraped.filter (fun k => startswith k pfx)).length ∧
    list_recent_keys scraped pfx
      <:+ List.insertionSort pyStrLe (scraped.filter (fun k => startswith k pfx)) ∧
    ((scraped.filter (fun k => startswith k pfx)).length ≤ 5 →
      list_recent_keys scraped pfx
        = List.insertionSort pyStrLe (scraped.filter (fun k => startswith k pfx))) := by
  refine ⟨?_, ?_, ?_, ?_, ?_⟩
  · exact List.Pairwise.sublist (takeLast_suffix 5 _).sublist
      (List.sorted_insertionSort pyStrLe _)
  · intro k hk
    have h1 : k ∈ List.insertionSort pyStrLe (scraped.filter (fun k => startswith k pfx)) :=
      (takeLast_suffix 5 _).sublist.mem hk
    have h2 : k ∈ scraped.filter (fun k => startswith k pfx) :=
      (List.perm_insertionSort pyStrLe _).mem_iff.mp h1
    exact (List.mem_filter.mp h2).2
  · simp only [list_recent_keys, length_takeLast, List.length_insertionSort]
  · exact takeLast_suffix 5 _
  · intro h
    exact takeLast_of_le 5 _ (by rw [List.length_insertionSort]; exact h)

/-- Claim C6: no failure is caught or retried anywhere.  A listing
failure ends the run with the disk exactly as it started; the first
failing per-key step ends the run at once, with exactly the
already-rendered frames of the earlier keys on disk and the GIF slot
untouched; every run that ends in an error leaves the GIF slot as it
started (no partial animation); and a run that ends without error wrote
the GIF and had every per-key step succeed. -/
theorem pipeline_fail_fast (env : Env) (pfx : String) (d0 : Disk) :
    (∀ e, env.listing = Except.error e → runPipeline env pfx d0 = (d0, some e)) ∧
    (∀ scraped ks1 k ks2 e, env.listing = Except.ok scraped →
      list_recent_keys scraped pfx = ks1 ++ k :: ks2 →
      (∀ k1 ∈ ks1, ∃ i, env.process k1 = Except.ok i) →
      env.process k = Except.error e →
      runPipeline env pfx d0 = (writeFrames env.process d0 ks1, some e) ∧
      (writeFrames env.process d0 ks1).gif = d0.gif ∧
      (writeFrames env.process d0 ks1).pngs
        = d0.pngs ++ ks1.map (fun k1 => (out_png k1, imgOf env.process k1))) ∧
    ((runPipeline env pfx d0).2.isSome = true → ((runPipeline env pfx d0).1).gif = d0.gif) ∧
    ((runPipeline env pfx d0).2 = none →
      (∃ g, ((runPipeline env pfx d0).1).gif = some g) ∧
      ∀ scraped, env.listing = Except.ok scraped →
        ∀ k ∈ list_recent_keys scraped pfx, ∃ i, env.process k = Except.ok i) := by
  refine ⟨?_, ?_, ?_, ?_⟩
  · intro e he
    simp [runPipeline, he]
  · intro scraped ks1 k ks2 e hl hkeys hok hfail
    have hfl := fetchLoop_fail_eq env.process e ks1 k ks2 d0 [] hok hfail
    rw [← hkeys] at hfl
    refine ⟨runPipeline_loop_err env pfx d0 scraped hl _ _ e hfl,
      (writeFrames_pngs env.process ks1 d0).2, (writeFrames_pngs env.process ks1 d0).1⟩
  · intro hsome
    cases hl : env.listing with
    | error e => simp [runPipeline, hl]
    | ok scraped =>
      rcases hfl : fetchLoop env.process (list_recent_keys scraped pfx) d0 []
        with ⟨d1, pngs, errOpt⟩
      have hg := fetchLoop_gif_eq env.process (list_recent_keys scraped pfx) d0 []
      rw [hfl] at hg
      cases errOpt with
      | some e =>
        rw [runPipeline_loop_err env pfx d0 scraped hl d1 pngs e hfl]
        exact hg
      | none =>
        rw [runPipeline_ok_case env pfx d0 scraped hl d1 pngs hfl] at hsome ⊢
        cases ha : assemble d1.openImg pngs.reverse with
        | error e => exact hg
        | ok g => rw [ha] at hsome; simp at hsome
  · intro hnone
    cases hl : env.listing with
    | error e => simp [runPipeline, hl] at hnone
    | ok scraped =>
      rcases hfl : fetchLoop env.process (list_recent_keys scraped pfx) d0 []
        with ⟨d1, pngs, errOpt⟩
      cases errOpt with
      | some e =>
        rw [runPipeline_loop_err env pfx d0 scraped hl d1 pngs e hfl] at hnone
        simp at hnone
      | none =>
        rw [runPipeline_ok_case env pfx d0 scraped hl d1 pngs hfl] at hnone ⊢
        cases ha : assemble d1.openImg pngs.reverse with
        | error e => rw [ha] at hnone; simp at hnone
        | ok g =>
          refine ⟨⟨g, rfl⟩, ?_⟩
          intro scraped2 hl2 k hk
          cases hl2
          exact fetchLoop_none_allOk env.process _ _ _ _ _ hfl k hk

/-- Claim C9: the resolver's suffix slice bounds every run at five
scans: the resolved key list never has more than five entries, whatever
the remote listing returned, and a run that ends without an error wrote
an animation of at most five frames. -/
theorem at_most_five_frames (env : Env) (pfx : String) (d0 : Disk) :
    (∀ scraped : List String, (list_recent_keys scraped pfx).length ≤ 5) ∧
    ((runPipeline env pfx d0).2 = none →
      ∀ g : Gif, ((runPipeline env pfx d0).1).gif = some g → g.frames.length ≤ 5) := by
  have hb : ∀ scraped : List String, (list_recent_keys scraped pfx).length ≤ 5 := by
    intro scraped
    simp only [list_recent_keys, length_takeLast]
    omega
  refine ⟨hb, ?_⟩
  intro hnone g hgif
  cases hl : env.listing with
  | error e => simp [runPipeline, hl] at hnone
  | ok scraped =>
    rcases hfl : fetchLoop env.process (list_recent_keys scraped pfx) d0 []
      with ⟨d1, pngs, errOpt⟩
    cases errOpt with
    | some e =>
      rw [runPipeline_loop_err env pfx d0 scraped hl d1 pngs e hfl] at hnone
      simp at hnone
    | none =>
      have hpngs := fetchLoop_none_pngs env.process _ _ _ _ _ hfl
      rw [runPipeline_ok_case env pfx d0 scraped hl d1 pngs hfl] at hnone hgif
      cases ha : assemble d1.openImg pngs.reverse with
      | error e => rw [ha] at hnone; simp at hnone
      | ok g0 =>
        rw [ha] at hgif
        simp only [Option.some.injEq] at hgif
        obtain ⟨imgs, hbi, hfr, _, _⟩ := assemble_ok_inv _ _ _ ha
        have hlen := buildImages_length _ _ _ _ hbi
        rw [← hgif]
        rw [hfr, hlen, List.length_reverse, hpngs]
        simpa using hb scraped

/-- The frame rendered for the older scan key `"MOB_1"`. -/
def oldFrame : Img := ⟨800, 800, Content.src 0⟩

/-- The frame rendered for the newer scan key `"MOB_2"`. -/
def newFrame : Img := ⟨800, 800, Content.src 1⟩

/-- A concrete two-scan run: the listing returns the keys `"MOB_1"`
(the older scan — it sorts first) and `"MOB_2"` (the newer scan), and
every fetch/decode/render succeeds. -/
def twoScanEnv : Env :=
  ⟨Except.ok ["MOB_1", "MOB_2"],
   fun k => if k = "MOB_1" then Except.ok oldFrame else Except.ok newFrame⟩

/-- Claim C1 is false of the code: `sorted(keys)[-5:]` already yields
the keys oldest→newest, the per-key loop appends `png_files` in that
same order, and `png_files = png_files[::-1]` then reverses it, so the
frames reach the assembly step newest-first and the animation plays
backward.  Concretely: with the older key `"MOB_1"` (which sorts before
`"MOB_2"` in Python's string order) and the newer key `"MOB_2"`, the
run succeeds and the saved GIF's first displayed frame is the newer
scan's image, with the older scan's image displayed last. -/
theorem gif_plays_backward :
    pyStrLe "MOB_1" "MOB_2" ∧
    ((runPipeline twoScanEnv "MOB" ⟨[], none⟩).1).gif
      = some ⟨[newFrame, oldFrame.resize (800, 800) Filter.BILINEAR], 800, 0⟩ ∧
    (runPipeline twoScanEnv "MOB" ⟨[], none⟩).2 = none := by
  decide

end RadarScript
